import Mathlib

/-!
Verification of the BAR Duel Championship rating-and-tiering engine.

Shallow embedding of the Python sources `src/actions/config.py`,
`src/actions/tier_utils.py`, `src/actions/recalculate_leaderboard.py` and
`src/actions/process_submission.py`.  Python floats are modelled as
rationals (the formulas involved are plain field arithmetic with
comparisons and clamps), machine integers as `Int`, Python dicts keyed by
player name as ordered association lists (Python dicts preserve insertion
order), and the external OpenSkill `MODEL.rate` call as an explicit
function parameter, since every property below is independent of the
skill-model output values.
-/

namespace BarDuel

/-- Python's built-in `round` (round half to even), as used by
`int(round(x))` in `tier_utils.calculate_dynamic_cr_change`. -/
def pyRound (q : ℚ) : ℤ :=
  let f := ⌊q⌋
  let r := q - f
  if r < 1/2 then f
  else if 1/2 < r then f + 1
  else if f % 2 = 0 then f else f + 1

/-- Python's two-argument `round(x, n)` (banker's rounding at the n-th
decimal), used for winrate / ordinal display rounding. -/
def roundTo (n : ℕ) (q : ℚ) : ℚ := (pyRound (q * 10 ^ n) : ℚ) / 10 ^ n

/-- One row of `config.TIER_DEFINITIONS`:
`(tier_name, min_os, max_os, min_cr, max_cr)` (the bound columns are
documented in `config.py` as percentiles). -/
structure TierDef where
  name : String
  minOs : ℚ
  maxOs : ℚ
  minCr : ℤ
  maxCr : ℤ
deriving DecidableEq

/-- `config.TIER_DEFINITIONS`. -/
def TIER_DEFINITIONS : List TierDef := [
  ⟨"Bronze",        1,   20,   900,  1200⟩,
  ⟨"Silver",       20,   40,  1200,  1500⟩,
  ⟨"Gold",         40,   60,  1500,  1800⟩,
  ⟨"Platinum",     60,   80,  1800,  2100⟩,
  ⟨"Diamond",      80,   95,  2100,  2500⟩,
  ⟨"Master",       95,   99,  2500,  3000⟩,
  ⟨"Grandmaster",  99,  100,  3000,  5000⟩]

/-- `config.TIER_LOGOS`. -/
def TIER_LOGOS : List (String × String) := [
  ("Bronze", "static/images/tiers/bronze.svg"),
  ("Silver", "static/images/tiers/silver.svg"),
  ("Gold", "static/images/tiers/gold.svg"),
  ("Platinum", "static/images/tiers/platinum.svg"),
  ("Diamond", "static/images/tiers/diamond.svg"),
  ("Master", "static/images/tiers/master.svg"),
  ("Grandmaster", "static/images/tiers/master.svg")]

/-- `config.CR_BASE_CHANGE` (used in float arithmetic, hence `ℚ`). -/
def CR_BASE_CHANGE : ℚ := 15

/-- `config.CR_MIN_CHANGE`. -/
def CR_MIN_CHANGE : ℚ := 2

/-- `config.CR_MAX_CHANGE`. -/
def CR_MAX_CHANGE : ℚ := 30

/-- `config.SKILL_DIFF_THRESHOLD`. -/
def SKILL_DIFF_THRESHOLD : ℚ := 15

/-- `tier_utils.DEFAULT_MU`. -/
def DEFAULT_MU : ℚ := 25

/-- `tier_utils.DEFAULT_SIGMA`. -/
def DEFAULT_SIGMA : ℚ := 25 / 6

/-- `tier_utils.PERCENTILE_OS_POINTS`, pairs `(percentile, os)`. -/
def PERCENTILE_OS_POINTS : List (ℚ × ℚ) := [
  (1, 26/10), (5, 726/100), (10, 958/100), (20, 1221/100), (30, 1384/100),
  (40, 1486/100), (50, 1645/100), (60, 1817/100), (70, 1957/100),
  (80, 2180/100), (90, 2545/100), (95, 2943/100), (96, 3102/100),
  (97, 3261/100), (98, 3530/100), (99, 3968/100)]

/-- The `for i in range(len(...)-1)` interpolation loop of
`tier_utils.get_os_percentile`: scan adjacent control-point pairs, on the
first pair with `os1 <= os_value <= os2` return the linear interpolation. -/
def interpScan (os_value : ℚ) : List (ℚ × ℚ) → Option ℚ
  | (p1, os1) :: (p2, os2) :: rest =>
      if os1 ≤ os_value ∧ os_value ≤ os2 then
        some (p1 + (os_value - os1) / (os2 - os1) * (p2 - p1))
      else interpScan os_value ((p2, os2) :: rest)
  | _ => none

/-- `tier_utils.get_os_percentile`: clamp below the first control point and
above the last, otherwise interpolate; `50.0` is the dead-code fallback. -/
def get_os_percentile (os_value : ℚ) : ℚ :=
  let first := PERCENTILE_OS_POINTS.getD 0 (0, 0)
  let last := PERCENTILE_OS_POINTS.getD (PERCENTILE_OS_POINTS.length - 1) (0, 0)
  if os_value ≤ first.2 then first.1
  else if last.2 ≤ os_value then last.1
  else (interpScan os_value PERCENTILE_OS_POINTS).getD 50

/-- The triple `(tier_name, min_cr, max_cr)` returned by tier lookups. -/
def tierTriple (td : TierDef) : String × ℤ × ℤ := (td.name, td.minCr, td.maxCr)

/-- The `for` loop of `tier_utils.get_tier_from_os`: first tier whose
`[min_os, max_os)` interval contains the value. -/
def tierScanOs (os_value : ℚ) : List TierDef → Option (String × ℤ × ℤ)
  | [] => none
  | td :: rest =>
      if td.minOs ≤ os_value ∧ os_value < td.maxOs then some (tierTriple td)
      else tierScanOs os_value rest

/-- `tier_utils.get_tier_from_os`: linear scan of `TIER_DEFINITIONS`,
falling back to `TIER_DEFINITIONS[-1]` (the last row) when no band
matches. -/
def get_tier_from_os (os_value : ℚ) : String × ℤ × ℤ :=
  match tierScanOs os_value TIER_DEFINITIONS with
  | some t => t
  | none =>
      match TIER_DEFINITIONS.getLast? with
      | some td => tierTriple td
      | none => ("", 0, 0)

/-- The `for` loop of `tier_utils.get_tier_from_cr`. -/
def tierScanCr (champion_rating : ℤ) : List TierDef → Option String
  | [] => none
  | td :: rest =>
      if td.minCr ≤ champion_rating ∧ champion_rating < td.maxCr then some td.name
      else tierScanCr champion_rating rest

/-- `tier_utils.get_tier_from_cr`: scan CR bands; below the lowest band
return the first tier, otherwise (at or above the top) the last tier. -/
def get_tier_from_cr (champion_rating : ℤ) : String :=
  match tierScanCr champion_rating TIER_DEFINITIONS with
  | some t => t
  | none =>
      match TIER_DEFINITIONS.head?, TIER_DEFINITIONS.getLast? with
      | some first, some last =>
          if champion_rating < first.minCr then first.name else last.name
      | _, _ => ""

/-- `tier_utils.get_initial_champion_rating`: the integer midpoint of the
tier's CR range (Python `//` is floor division, hence `Int.fdiv`). -/
def get_initial_champion_rating (min_cr max_cr : ℤ) : ℤ :=
  Int.fdiv (min_cr + max_cr) 2

/-- `tier_utils.calculate_dynamic_cr_change`: the bounded, asymmetric CR
delta derived from the two pre-match skill ordinals. -/
def calculate_dynamic_cr_change (winner_os loser_os : ℚ) (is_winner : Bool) : ℤ :=
  let os_difference := winner_os - loser_os
  let normalized_diff := max (-1) (min 1 (os_difference / SKILL_DIFF_THRESHOLD))
  let cr_change :=
    if is_winner then
      CR_BASE_CHANGE - normalized_diff * (CR_BASE_CHANGE - CR_MIN_CHANGE)
    else
      -(CR_BASE_CHANGE + normalized_diff * (CR_MAX_CHANGE - CR_BASE_CHANGE))
  let clamped :=
    if is_winner then
      max CR_MIN_CHANGE (min CR_MAX_CHANGE cr_change)
    else
      max (-CR_MAX_CHANGE) (min (-CR_MIN_CHANGE) cr_change)
  pyRound clamped

/-- The spec's §4.3 pseudocode for `delta(winner_pre, loser_pre)`, written
as stated there (for the refinement claim C1); `round` is Python's
round-half-to-even. -/
def spec_delta (winner_pre loser_pre : ℚ) : ℤ × ℤ :=
  let diff := winner_pre - loser_pre
  let normalized := max (-1) (min 1 (diff / SKILL_DIFF_THRESHOLD))
  let wd := CR_BASE_CHANGE - normalized * (CR_BASE_CHANGE - CR_MIN_CHANGE)
  let ld := -(CR_BASE_CHANGE + normalized * (CR_MAX_CHANGE - CR_BASE_CHANGE))
  let wdc := max CR_MIN_CHANGE (min CR_MAX_CHANGE wd)
  let ldc := max (-CR_MAX_CHANGE) (min (-CR_MIN_CHANGE) ld)
  (pyRound wdc, pyRound ldc)

/-! ## Match corpus data model

Shapes of the JSON submission documents consumed by
`recalculate_leaderboard.py` and `process_submission.py`.  Optional JSON
keys are `Option`; Python dicts keyed by player name are ordered
association lists. -/

/-- One value of a `seed_ratings` dict: `{"mu": ..., "sigma": ...}`, either
key possibly missing. -/
structure SeedVals where
  mu : Option ℚ
  sigma : Option ℚ
deriving DecidableEq

/-- One element of a submission's `matches` array (newer format). -/
structure MatchRec where
  seed_ratings : List (String × SeedVals)
  winner : Option String
deriving DecidableEq

/-- One element of a replay's `players` array (older format). -/
structure ReplayPlayer where
  name : Option String
  skill : Option ℚ
deriving DecidableEq

/-- One element of a submission's `replays` array (older format). -/
structure Replay where
  winner : Option String
  players : List ReplayPlayer
deriving DecidableEq

/-- One submission document from `submissions/bo3`. -/
structure Submission where
  players : List String
  matchList : List MatchRec
  replays : List Replay
deriving DecidableEq

/-- Python truthiness of an optional string (`if not winner: ...`):
`None` and the empty string are falsy. -/
def truthyStr : Option String → Bool
  | none => false
  | some s => !(s == "")

/-- `seed_ratings.get(p, {}).get("mu", DEFAULT_MU)`. -/
def seedMu (sr : List (String × SeedVals)) (p : String) : ℚ :=
  match sr.lookup p with
  | none => DEFAULT_MU
  | some v => v.mu.getD DEFAULT_MU

/-- `seed_ratings.get(p, {}).get("sigma", DEFAULT_SIGMA)`. -/
def seedSigma (sr : List (String × SeedVals)) (p : String) : ℚ :=
  match sr.lookup p with
  | none => DEFAULT_SIGMA
  | some v => v.sigma.getD DEFAULT_SIGMA

/-- The seed-rating probe of `get_player_initial_os` /
`get_player_initial_os_from_submission` on one match: if the player has a
`seed_ratings` entry, return `mu - sigma` with per-key defaults. -/
def seedOsInMatch (m : MatchRec) (p : String) : Option ℚ :=
  match m.seed_ratings.lookup p with
  | none => none
  | some v => some (v.mu.getD DEFAULT_MU - v.sigma.getD DEFAULT_SIGMA)

/-- The replay probe of the same functions: first replay player whose
`name` equals the player and which has a `skill` key; `mu = skill`,
`sigma = mu / 3`. -/
def replayOsFor (r : Replay) (p : String) : Option ℚ :=
  (r.players.find? (fun pd => pd.name == some p && pd.skill.isSome)).bind
    (fun pd => pd.skill.map (fun mu => mu - mu / 3))

/-- `process_submission.get_player_initial_os_from_submission`: scan the
submission's matches (newer format), then its replays (older format). -/
def get_player_initial_os_from_submission (sub : Submission) (p : String) : Option ℚ :=
  match sub.matchList.findSome? (fun m => seedOsInMatch m p) with
  | some v => some v
  | none => sub.replays.findSome? (fun r => replayOsFor r p)

/-- `recalculate_leaderboard.get_player_initial_os`: first appearance
across all submissions, falling back to the default seed. -/
def get_player_initial_os (subs : List Submission) (p : String) : ℚ :=
  (subs.findSome? (fun sub => get_player_initial_os_from_submission sub p)).getD
    (DEFAULT_MU - DEFAULT_SIGMA)

/-- The external OpenSkill `MODEL.rate([[r1], [r2]], ranks=ranks)` call,
abstracted: it receives both players' `(mu, sigma)` pairs and the ranks
pair and returns both updated `(mu, sigma)` pairs.  All claims below hold
for every such function. -/
def RateFn : Type := (ℚ × ℚ) → (ℚ × ℚ) → (ℕ × ℕ) → ((ℚ × ℚ) × (ℚ × ℚ))

/-- The ranks argument built for `MODEL.rate`: `[1,2]` if p1 won, `[2,1]`
if p2 won, `[1,1]` for a tie. -/
def ranksFor (winner : Option String) (p1 p2 : String) : ℕ × ℕ :=
  if winner = some p1 then (1, 2) else if winner = some p2 then (2, 1) else (1, 1)

/-- The pair of CR deltas `(p1_cr_delta, p2_cr_delta)` computed from the
pre-match ordinals, shared verbatim by `_process_match_for_cr_changes`,
`_process_replay_for_cr_changes` and `process_match_incremental`. -/
def matchDeltas (winner : Option String) (p1 p2 : String) (p1_pre_os p2_pre_os : ℚ) : ℤ × ℤ :=
  if winner = some p1 then
    (calculate_dynamic_cr_change p1_pre_os p2_pre_os true,
     calculate_dynamic_cr_change p1_pre_os p2_pre_os false)
  else if winner = some p2 then
    (calculate_dynamic_cr_change p2_pre_os p1_pre_os false,
     calculate_dynamic_cr_change p2_pre_os p1_pre_os true)
  else (0, 0)

/-! ## Full recalculation (`recalculate_leaderboard.py`) -/

/-- One value of the `player_data` dict built by
`calculate_player_champion_ratings`. -/
structure PData where
  player : String
  initial_os : ℚ
  percentile : ℚ
  tier : String
  min_cr : ℤ
  max_cr : ℤ
  initial_cr : ℤ
  current_cr : ℤ
  matchCount : ℕ
  wins : ℕ
  losses : ℕ
  cr_changes : List ℤ
  opponents : List String
  latest_os_mu : Option ℚ
  latest_os_sigma : Option ℚ
deriving DecidableEq

/-- The player-initialisation step of `calculate_player_champion_ratings`
for one player (lines 126-148): note the tier lookup is fed the raw
ordinal `initial_os`, not the computed percentile. -/
def initPlayer (subs : List Submission) (p : String) : PData :=
  let initial_os := get_player_initial_os subs p
  let percentile := get_os_percentile initial_os
  let t := get_tier_from_os initial_os
  let initial_cr := get_initial_champion_rating t.2.1 t.2.2
  { player := p, initial_os := initial_os, percentile := percentile,
    tier := t.1, min_cr := t.2.1, max_cr := t.2.2,
    initial_cr := initial_cr, current_cr := initial_cr,
    matchCount := 0, wins := 0, losses := 0,
    cr_changes := [], opponents := [],
    latest_os_mu := none, latest_os_sigma := none }

/-- The `player_data` dict after the initialisation loop.  `order` is the
iteration order of the Python `set` `all_players`; the code iterates it to
populate the dict, so the dict's insertion order is exactly `order`. -/
def initPlayerData (subs : List Submission) (order : List String) : List (String × PData) :=
  order.map (fun p => (p, initPlayer subs p))

/-- In-place update of one key of an ordered dict (`player_data[p] ...`
mutations guarded by `if p in player_data`): a no-op when the key is
absent. -/
def updateEntry {α : Type} (k : String) (f : α → α) (l : List (String × α)) : List (String × α) :=
  l.map (fun e => if e.1 = k then (e.1, f e.2) else e)

/-- The per-player mutation block of `_process_match_for_cr_changes`
(lines 300-323) / `_process_replay_for_cr_changes` (identical). -/
def applySide (opponent : String) (cr_delta : ℤ) (new_mu new_sigma : ℚ) (won : Bool)
    (d : PData) : PData :=
  { d with current_cr := d.current_cr + cr_delta,
           cr_changes := d.cr_changes ++ [cr_delta],
           matchCount := d.matchCount + 1,
           opponents := d.opponents ++ [opponent],
           latest_os_mu := some new_mu,
           latest_os_sigma := some new_sigma,
           wins := if won then d.wins + 1 else d.wins,
           losses := if won then d.losses else d.losses + 1 }

/-- The common tail of `_process_match_for_cr_changes` and
`_process_replay_for_cr_changes` from the pre-match ordinals on (the two
Python functions duplicate this block verbatim): run the skill model,
compute both deltas, mutate both players' dict entries (p1 first). -/
def applyPairFull (rate : RateFn) (winner : Option String) (p1 p2 : String)
    (p1_mu p1_sigma p2_mu p2_sigma : ℚ) (pd : List (String × PData)) :
    List (String × PData) :=
  let p1_pre_os := p1_mu - p1_sigma
  let p2_pre_os := p2_mu - p2_sigma
  let upd := rate (p1_mu, p1_sigma) (p2_mu, p2_sigma) (ranksFor winner p1 p2)
  let deltas := matchDeltas winner p1 p2 p1_pre_os p2_pre_os
  let pd1 := updateEntry p1
    (applySide p2 deltas.1 upd.1.1 upd.1.2 (winner == some p1)) pd
  updateEntry p2 (applySide p1 deltas.2 upd.2.1 upd.2.2 (winner == some p2)) pd1

/-- `recalculate_leaderboard._process_match_for_cr_changes`. -/
def _process_match_for_cr_changes (rate : RateFn) (m : MatchRec) (players : List String)
    (pd : List (String × PData)) : List (String × PData) :=
  match players with
  | [p1, p2] =>
      if m.seed_ratings = [] ∨ truthyStr m.winner = false then pd
      else
        applyPairFull rate m.winner p1 p2
          (seedMu m.seed_ratings p1) (seedSigma m.seed_ratings p1)
          (seedMu m.seed_ratings p2) (seedSigma m.seed_ratings p2) pd
  | _ => pd

/-- The `player_skills` dict of `_process_replay_for_cr_changes`:
`{name: (mu, mu/3)}` for players with truthy `name` and `skill` (Python
dict insert-or-overwrite). -/
def replaySkillMap (players_data : List ReplayPlayer) : List (String × (ℚ × ℚ)) :=
  players_data.foldl
    (fun acc pd =>
      match pd.name, pd.skill with
      | some n, some s =>
          if n ≠ "" ∧ s ≠ 0 then
            if acc.any (fun e => e.1 == n) then
              acc.map (fun e => if e.1 == n then (e.1, (s, s / 3)) else e)
            else acc ++ [(n, (s, s / 3))]
          else acc
      | _, _ => acc)
    []

/-- `recalculate_leaderboard._process_replay_for_cr_changes`. -/
def _process_replay_for_cr_changes (rate : RateFn) (r : Replay)
    (submission_players : List String) (pd : List (String × PData)) :
    List (String × PData) :=
  match submission_players with
  | [p1, p2] =>
      if truthyStr r.winner = false ∨ r.players.length ≠ 2 then pd
      else
        let skills := replaySkillMap r.players
        if skills.length ≠ 2 then pd
        else
          match skills.lookup p1, skills.lookup p2 with
          | some s1, some s2 =>
              applyPairFull rate r.winner p1 p2 s1.1 s1.2 s2.1 s2.2 pd
          | _, _ => pd
  | _ => pd

/-- The match-processing loop of `calculate_player_champion_ratings`
(lines 154-169): per submission, skip unless exactly two players, then
process all `matches`, then all `replays`. -/
def processSubmissionFull (rate : RateFn) (pd : List (String × PData)) (sub : Submission) :
    List (String × PData) :=
  if sub.players.length ≠ 2 then pd
  else
    let pd1 := sub.matchList.foldl
      (fun acc m => _process_match_for_cr_changes rate m sub.players acc) pd
    sub.replays.foldl
      (fun acc r => _process_replay_for_cr_changes rate r sub.players acc) pd1

/-- All submissions, in file order. -/
def processAllSubs (rate : RateFn) (subs : List Submission) (pd : List (String × PData)) :
    List (String × PData) :=
  subs.foldl (processSubmissionFull rate) pd

/-- The final `player_data` dict of a full recalculation run. -/
def finalPD (rate : RateFn) (order : List String) (subs : List Submission) :
    List (String × PData) :=
  processAllSubs rate subs (initPlayerData subs order)

/-! ## Leaderboard assembly (`calculate_player_champion_ratings`
lines 171-241, duplicated as `rebuild_leaderboard_structure`) -/

/-- One element of the `results` list (lines 188-200). -/
structure ResultRow where
  player : String
  tier : String
  initial_cr : ℤ
  current_cr : ℤ
  matchCount : ℕ
  wins : ℕ
  losses : ℕ
  winrate : ℚ
  initial_os : ℚ
  percentile : ℚ
  latest_os : Option ℚ
deriving DecidableEq

/-- The result record built from one `player_data` value with at least one
match (lines 174-200): winrate to one decimal, display tier recomputed
from current CR. -/
def resultOf (d : PData) : ResultRow :=
  { player := d.player,
    tier := get_tier_from_cr d.current_cr,
    initial_cr := d.initial_cr, current_cr := d.current_cr,
    matchCount := d.matchCount, wins := d.wins, losses := d.losses,
    winrate := roundTo 1 ((d.wins : ℚ) / (d.matchCount : ℚ) * 100),
    initial_os := roundTo 6 d.initial_os,
    percentile := roundTo 2 d.percentile,
    latest_os :=
      match d.latest_os_mu, d.latest_os_sigma with
      | some mu, some sigma => some (roundTo 2 (mu - sigma))
      | _, _ => none }

/-- The `results` list: iterate `player_data` in insertion order, skipping
players with `matches == 0` (lines 172-176). -/
def resultsOf (pd : List (String × PData)) : List ResultRow :=
  pd.filterMap (fun e => if e.2.matchCount = 0 then none else some (resultOf e.2))

/-- `tier_order.get(tier, -1)`: index of the tier name in
`TIER_DEFINITIONS`, `-1` for unknown names (lines 202-203). -/
def tier_order (t : String) : ℤ :=
  match TIER_DEFINITIONS.findIdx? (fun td => td.name == t) with
  | some i => (i : ℤ)
  | none => -1

/-- The Python sort key `(-tier_order.get(tier, -1), -current_cr)`. -/
def sortKey (x : ResultRow) : ℤ × ℤ := (-(tier_order x.tier), -x.current_cr)

/-- Lexicographic order on the key pairs (Python tuple comparison). -/
def lexLe (a b : ℤ × ℤ) : Prop := a.1 < b.1 ∨ (a.1 = b.1 ∧ a.2 ≤ b.2)

instance : DecidableRel lexLe := fun a b => by
  unfold lexLe; infer_instance

/-- The comparison used by `results.sort(key=...)`. -/
def rowLe (a b : ResultRow) : Prop := lexLe (sortKey a) (sortKey b)

instance : DecidableRel rowLe := fun a b => by
  unfold rowLe; infer_instance

instance : IsTotal ResultRow rowLe :=
  ⟨fun a b => by unfold rowLe lexLe; omega⟩

instance : IsTrans ResultRow rowLe :=
  ⟨fun a b c => by unfold rowLe lexLe; omega⟩

/-- `results.sort(key=lambda x: (-tier_order..., -current_cr))`: Python's
sort is stable, and a stable sort is extensionally unique, so it is
modelled by (stable) insertion sort. -/
def sortResults (rs : List ResultRow) : List ResultRow := rs.insertionSort rowLe

/-- One entry of the final leaderboard list: tier separator, tier header,
or ranked player row. -/
inductive Row where
  | tier_separator : Row
  | tier_header (tier : String) (tier_logo : String) (tier_info : String) : Row
  | player (r : ResultRow) (tier_rank : ℕ) : Row
deriving DecidableEq

/-- The `tier_info` string of a tier header:
`next((f"CR {min_cr}-{max_cr}" ...), "")`. -/
def tierInfoStr (t : String) : String :=
  match TIER_DEFINITIONS.find? (fun td => td.name == t) with
  | some td => "CR " ++ toString td.minCr ++ "-" ++ toString td.maxCr
  | none => ""

/-- `TIER_LOGOS.get(tier, "")`. -/
def tierLogo (t : String) : String := (TIER_LOGOS.lookup t).getD ""

/-- The tier-header record emitted at a tier change. -/
def headerRow (t : String) : Row := Row.tier_header t (tierLogo t) (tierInfoStr t)

/-- The assembly walk (lines 207-239): state is the current tier
(`current_tier`, initially `None`) and the running `tier_rank`; on a tier
change emit a separator (unless at the very first tier) and a header and
reset the rank. -/
def walk : Option String → ℕ → List ResultRow → List Row
  | _, _, [] => []
  | cur, rank, e :: rest =>
      if cur = some e.tier then
        Row.player e (rank + 1) :: walk cur (rank + 1) rest
      else
        (match cur with
         | none => []
         | some _ => [Row.tier_separator]) ++
          headerRow e.tier :: Row.player e 1 :: walk (some e.tier) 1 rest

/-- Sort the results and run the walk (lines 202-241). -/
def assembleRows (rs : List ResultRow) : List Row := walk none 0 (sortResults rs)

/-- The full-recalculation leaderboard entry list
(`calculate_player_champion_ratings`), given the iteration order of the
`all_players` set. -/
def calcBoard (rate : RateFn) (order : List String) (subs : List Submission) : List Row :=
  assembleRows (resultsOf (finalPD rate order subs))

/-- `player_count`: number of `"type": "player"` entries
(`update_leaderboard` line 449). -/
def playerCountOf (rows : List Row) : ℕ :=
  (rows.filter (fun r => match r with | Row.player _ _ => true | _ => false)).length

/-- The sequence of player names of the player rows, in order. -/
def rowPlayers (rows : List Row) : List String :=
  rows.filterMap (fun r => match r with | Row.player e _ => some e.player | _ => none)

/-- The sequence of result records of the player rows, in order. -/
def rowEntries (rows : List Row) : List ResultRow :=
  rows.filterMap (fun r => match r with | Row.player e _ => some e | _ => none)

/-! ## Incremental update (`process_submission.py`) -/

/-- One persisted `"type": "player"` leaderboard entry as mutated by the
incremental path. -/
structure IncEntry where
  player : String
  tier : String
  initial_cr : ℤ
  current_cr : ℤ
  matchCount : ℕ
  wins : ℕ
  losses : ℕ
  winrate : ℚ
  initial_os : ℚ
  percentile : ℚ
  latest_os : ℚ
  tier_rank : ℕ
deriving DecidableEq

/-- `process_submission.create_new_player_entry`. -/
def create_new_player_entry (p : String) (initial_os : ℚ) : IncEntry :=
  let percentile := get_os_percentile initial_os
  let t := get_tier_from_os initial_os
  let initial_cr := get_initial_champion_rating t.2.1 t.2.2
  { player := p, tier := t.1,
    initial_cr := initial_cr, current_cr := initial_cr,
    matchCount := 0, wins := 0, losses := 0, winrate := 0,
    initial_os := roundTo 6 initial_os,
    percentile := roundTo 2 percentile,
    latest_os := roundTo 2 initial_os,
    tier_rank := 1 }

/-- The per-player mutation block of `process_match_incremental`
(lines 188-202): CR, counters, winrate, latest skill and display tier all
updated in place. -/
def applySideInc (cr_delta : ℤ) (new_os : ℚ) (won : Bool) (e : IncEntry) : IncEntry :=
  let cr := e.current_cr + cr_delta
  let m := e.matchCount + 1
  let w := if won then e.wins + 1 else e.wins
  let l := if won then e.losses else e.losses + 1
  { e with current_cr := cr, matchCount := m, wins := w, losses := l,
           winrate := roundTo 1 ((w : ℚ) / (m : ℚ) * 100),
           latest_os := roundTo 2 new_os,
           tier := get_tier_from_cr cr }

/-- `process_submission.process_match_incremental`. -/
def process_match_incremental (rate : RateFn) (m : MatchRec) (players : List String)
    (entries : List (String × IncEntry)) : List (String × IncEntry) :=
  match players with
  | [p1, p2] =>
      if m.seed_ratings = [] ∨ truthyStr m.winner = false then entries
      else
        let p1_mu := seedMu m.seed_ratings p1
        let p1_sigma := seedSigma m.seed_ratings p1
        let p2_mu := seedMu m.seed_ratings p2
        let p2_sigma := seedSigma m.seed_ratings p2
        let upd := rate (p1_mu, p1_sigma) (p2_mu, p2_sigma) (ranksFor m.winner p1 p2)
        let deltas := matchDeltas m.winner p1 p2 (p1_mu - p1_sigma) (p2_mu - p2_sigma)
        let entries1 := updateEntry p1
          (applySideInc deltas.1 (upd.1.1 - upd.1.2) (m.winner == some p1)) entries
        updateEntry p2
          (applySideInc deltas.2 (upd.2.1 - upd.2.2) (m.winner == some p2)) entries1
  | _ => entries

/-- The new-player loop of `process_new_submissions` (lines 281-289): add
an entry for each submission player not yet present, but only when an
initial skill can be extracted from the submission. -/
def addNewPlayers (sub : Submission) (entries : List (String × IncEntry)) :
    List (String × IncEntry) :=
  sub.players.foldl
    (fun es p =>
      if es.any (fun e => e.1 == p) then es
      else
        match get_player_initial_os_from_submission sub p with
        | some ios => es ++ [(p, create_new_player_entry p ios)]
        | none => es)
    entries

/-- The persisted incremental state: the `.processed_submissions.json` set
(as the list of filenames it contains) and the player entries of the
leaderboard document. -/
structure IncState where
  processed : List String
  entries : List (String × IncEntry)
deriving DecidableEq

/-- `process_submission.get_new_submissions`: the (name-sorted) submission
files whose filename is not in the processed set. -/
def get_new_submissions (processed : List String) (files : List (String × Submission)) :
    List (String × Submission) :=
  files.filter (fun f => !(processed.contains f.1))

/-- The body of the `for filename, submission in new_submissions` loop
(lines 275-298): skip (without marking processed) unless exactly two
players; otherwise add new players, process all matches, and add the
filename to the processed set. -/
def stepSub (rate : RateFn) (st : IncState) (f : String × Submission) : IncState :=
  if f.2.players.length ≠ 2 then st
  else
    let es1 := addNewPlayers f.2 st.entries
    let es2 := f.2.matchList.foldl
      (fun es m => process_match_incremental rate m f.2.players es) es1
    { processed := st.processed ++ [f.1], entries := es2 }

/-- One full `process_new_submissions` run over the submissions directory
(the leaderboard rebuild and file writes happen after this state is
computed). -/
def runIncremental (rate : RateFn) (st : IncState) (files : List (String × Submission)) :
    IncState :=
  (get_new_submissions st.processed files).foldl (stepSub rate) st

/-! ## Reference shape of the assembled document (spec §4.5)

Definitions that transcribe the spec's wording of the walk — maximal runs
of equal tier, each rendered as a header followed by rows ranked `1, 2,
…`, runs joined by single separators, no separator before the first run.
The structure theorem for claim C7 proves the code's walk equal to this
shape on the sorted list. -/

/-- Rank rows `n+1, n+2, …` in list order: "within each tier, assign
`tier_rank` starting at 1 in sorted order". -/
def rankFrom : ℕ → List ResultRow → List Row
  | _, [] => []
  | n, e :: rest => Row.player e (n + 1) :: rankFrom (n + 1) rest

/-- A tier group: its header (from the first row's tier) followed by its
rows ranked from 1. -/
def groupRows : List ResultRow → List Row
  | [] => []
  | e :: g => headerRow e.tier :: rankFrom 0 (e :: g)

/-- Later tier groups, each preceded by exactly one separator. -/
def sepChunks (gs : List (List ResultRow)) : List Row :=
  gs.flatMap (fun g => Row.tier_separator :: groupRows g)

/-- The spec's document shape: first group without a separator, then each
further group preceded by one separator. -/
def specAssemble : List (List ResultRow) → List Row
  | [] => []
  | g :: gs => groupRows g ++ sepChunks gs

/-- Maximal runs of equal `tier` in a list of result rows. -/
def chunkTiers : List ResultRow → List (List ResultRow)
  | [] => []
  | e :: rest =>
      (e :: rest.takeWhile (fun x => x.tier == e.tier)) ::
        chunkTiers (rest.dropWhile (fun x => x.tier == e.tier))
termination_by l => l.length
decreasing_by
  simp only [List.length_cons]
  exact Nat.lt_succ_of_le (List.dropWhile_sublist _).length_le

/-! ## Concrete inputs used by witnesses and counterexamples -/

/-- A rate function for concrete runs (claims independent of the skill
model hold for every `RateFn`; concrete counterexamples fix one). -/
def idRate : RateFn := fun a b _ => (a, b)

/-- A one-submission corpus whose player `P` has seed `mu = 16.45`,
`sigma = 0`, hence initial ordinal 16.45. -/
def C2sub : Submission :=
  ⟨["P", "Q"], [⟨[("P", ⟨some (1645/100), some 0⟩)], some "P"⟩], []⟩

/-- A tie match record: both players seeded, the declared winner is the
string `"draw"`, which is neither player. -/
def C9m : MatchRec := ⟨[("A", ⟨some 20, some 5⟩), ("B", ⟨some 20, some 5⟩)], some "draw"⟩

/-- A one-player ledger for the recalc side of the C9 witness. -/
def C9pd : List (String × PData) := [("A", initPlayer [] "A")]

/-- A one-player entry map for the incremental side of the C9 witness. -/
def C9es : List (String × IncEntry) := [("A", create_new_player_entry "A" 20)]

/-- A decisive match whose winner is `A`, with both players seeded. -/
def C10m : MatchRec := ⟨[("A", ⟨some 20, some 5⟩), ("B", ⟨some 18, some 6⟩)], some "A"⟩

/-- An entry map containing only player `A`. -/
def C10es : List (String × IncEntry) := [("A", create_new_player_entry "A" 15)]

/-- Submission: `A` beats `C`, both seeded identically. -/
def C3subA : Submission :=
  ⟨["A", "C"], [⟨[("A", ⟨some 20, some 0⟩), ("C", ⟨some 20, some 0⟩)], some "A"⟩], []⟩

/-- Submission: `B` beats `D`, with exactly the same seeds as `C3subA`. -/
def C3subB : Submission :=
  ⟨["B", "D"], [⟨[("B", ⟨some 20, some 0⟩), ("D", ⟨some 20, some 0⟩)], some "B"⟩], []⟩

/-- A corpus in which `A` and `B` end in the same tier with equal current
CR (as do `C` and `D`). -/
def C3subs : List Submission := [C3subA, C3subB]

/-- Invariant: each `player_data` value's `player` field equals its key. -/
def OwnsName (pd : List (String × PData)) : Prop := ∀ e ∈ pd, e.2.player = e.1

/-- A minimal result row for the C7 witness. -/
def mkRow (p t : String) (cr : ℤ) : ResultRow :=
  ⟨p, t, 0, cr, 1, 1, 0, 100, 0, 0, none⟩

/-- Concrete rows in two tiers, deliberately out of order. -/
def C7entries : List ResultRow :=
  [mkRow "x" "Bronze" 1000, mkRow "y" "Gold" 1600, mkRow "z" "Gold" 1700]


/-! ## Rounding bounds -/

theorem floor_le_pyRound (q : ℚ) : ⌊q⌋ ≤ pyRound q := by
  simp only [pyRound]
  split_ifs <;> omega

theorem pyRound_le_ceil (q : ℚ) : pyRound q ≤ ⌈q⌉ := by
  simp only [pyRound]
  split_ifs with h1 h2 h3
  · exact Int.floor_le_ceil q
  · have hq : (⌊q⌋ : ℚ) < q := by linarith
    have := Int.lt_ceil.mpr hq
    omega
  · exact Int.floor_le_ceil q
  · have hq : (⌊q⌋ : ℚ) < q := by
      have : q - (⌊q⌋ : ℚ) = 1/2 := le_antisymm (not_lt.mp h2) (not_lt.mp h1)
      linarith
    have := Int.lt_ceil.mpr hq
    omega

theorem le_pyRound {a : ℤ} {q : ℚ} (h : (a : ℚ) ≤ q) : a ≤ pyRound q :=
  le_trans (Int.le_floor.mpr h) (floor_le_pyRound q)

theorem pyRound_le {b : ℤ} {q : ℚ} (h : q ≤ (b : ℚ)) : pyRound q ≤ b :=
  le_trans (pyRound_le_ceil q) (Int.ceil_le.mpr h)

/-! ## Claim C1 -/

/-- C1 (counterexample): the claim asserts `delta(10.0, 40.0) = (30, -2)`,
but the delta function — exactly as the claim's own formula dictates,
since `15 - (-1)·(15-2) = 28` — returns `(28, -2)`. -/
theorem C1_counterexample :
    (calculate_dynamic_cr_change 10 40 true, calculate_dynamic_cr_change 10 40 false)
        ≠ ((30 : ℤ), (-2 : ℤ))
    ∧ (calculate_dynamic_cr_change 10 40 true, calculate_dynamic_cr_change 10 40 false)
        = ((28 : ℤ), (-2 : ℤ)) := by
  refine ⟨?_, ?_⟩ <;> decide!

/-- C1 (amended): for every pair of pre-match ordinals and each role, the
CR delta function computes exactly the spec §4.3 rule (diff, normalize,
clamp to [-1,1], asymmetric scale, clamp, round), and in particular
`delta(20,20) = (15,-15)`, `delta(40,10) = (2,-30)` and — as the formula
forces, in place of the claim's `(30,-2)` — `delta(10,40) = (28,-2)`. -/
theorem C1_delta_matches_spec :
    (∀ w l : ℚ,
      (calculate_dynamic_cr_change w l true, calculate_dynamic_cr_change w l false)
        = spec_delta w l)
    ∧ spec_delta 20 20 = (15, -15)
    ∧ spec_delta 40 10 = (2, -30)
    ∧ spec_delta 10 40 = (28, -2) := by
  refine ⟨fun w l => rfl, ?_, ?_, ?_⟩ <;> decide!

/-! ## Claim C6 -/

/-- C6: for every pair of pre-match skill ordinals, the winner delta is an
integer in [2, 30] and the loser delta an integer in [-30, -2] (the return
type `ℤ` embeds Python's `int(round(...))`). -/
theorem C6_delta_bounds (w l : ℚ) :
    2 ≤ calculate_dynamic_cr_change w l true
    ∧ calculate_dynamic_cr_change w l true ≤ 30
    ∧ -30 ≤ calculate_dynamic_cr_change w l false
    ∧ calculate_dynamic_cr_change w l false ≤ -2 := by
  simp only [calculate_dynamic_cr_change, CR_BASE_CHANGE, CR_MIN_CHANGE,
    CR_MAX_CHANGE, SKILL_DIFF_THRESHOLD, if_true, Bool.false_eq_true, if_false]
  refine ⟨le_pyRound ?_, pyRound_le ?_, le_pyRound ?_, pyRound_le ?_⟩
  · push_cast
    exact le_max_left _ _
  · push_cast
    exact max_le (by norm_num) (min_le_left _ _)
  · push_cast
    exact le_max_left _ _
  · push_cast
    exact max_le (by norm_num) (min_le_left _ _)

/-! ## Claim C5 -/

theorem tierScanOs_some {v : ℚ} : ∀ {defs : List TierDef} {t},
    tierScanOs v defs = some t → ∃ td ∈ defs, t = tierTriple td := by
  intro defs
  induction defs with
  | nil => intro t h; simp [tierScanOs] at h
  | cons td rest ih =>
      intro t h
      rw [tierScanOs] at h
      split_ifs at h
      · exact ⟨td, List.mem_cons_self td rest, (Option.some.inj h).symm⟩
      · obtain ⟨td2, h2, h3⟩ := ih h
        exact ⟨td2, List.mem_cons_of_mem _ h2, h3⟩

theorem tierScanOs_none {v : ℚ} : ∀ {defs : List TierDef},
    (∀ td ∈ defs, ¬(td.minOs ≤ v ∧ v < td.maxOs)) → tierScanOs v defs = none := by
  intro defs
  induction defs with
  | nil => intro _; rfl
  | cons td rest ih =>
      intro h
      rw [tierScanOs, if_neg (h td (List.mem_cons_self td rest))]
      exact ih (fun td2 h2 => h td2 (List.mem_cons_of_mem _ h2))

/-- C5 (counterexample): the skill value 0.5 lies strictly below the
lowest tier's upper bound (indeed in [0,1)), yet the tier lookup resolves
it to the *highest* tier (`Grandmaster`), not the lowest (`Bronze`): no
band matches, and the fallback returns `TIER_DEFINITIONS[-1]`. -/
theorem C5_counterexample :
    get_tier_from_os (1/2) = ("Grandmaster", 3000, 5000)
    ∧ (TIER_DEFINITIONS.map TierDef.name).head? = some "Bronze"
    ∧ ("Grandmaster" : String) ≠ "Bronze" := by
  refine ⟨?_, ?_, ?_⟩ <;> decide!

/-- C5 (amended): the tier lookup is total — every skill value resolves to
some defined tier without error; values in the lowest tier's listed band
[1, 20) resolve to the lowest tier; but values below the lowest listed
lower bound (e.g. in [0,1)) resolve to the *highest* tier via the
fallback, as do values at or above the highest upper bound. -/
theorem C5_tier_lookup_total (v : ℚ) :
    (∃ td ∈ TIER_DEFINITIONS, get_tier_from_os v = (td.name, td.minCr, td.maxCr))
    ∧ (1 ≤ v → v < 20 → get_tier_from_os v = ("Bronze", 900, 1200))
    ∧ (v < 1 → get_tier_from_os v = ("Grandmaster", 3000, 5000))
    ∧ (100 ≤ v → get_tier_from_os v = ("Grandmaster", 3000, 5000)) := by
  refine ⟨?_, ?_, ?_, ?_⟩
  · rcases h : tierScanOs v TIER_DEFINITIONS with _ | t
    · refine ⟨⟨"Grandmaster", 99, 100, 3000, 5000⟩, by decide, ?_⟩
      rw [get_tier_from_os, h]
      rfl
    · obtain ⟨td, htd, ht⟩ := tierScanOs_some h
      refine ⟨td, htd, ?_⟩
      rw [get_tier_from_os, h, ht, tierTriple]
  · intro h1 h2
    have : tierScanOs v TIER_DEFINITIONS = some ("Bronze", 900, 1200) := by
      rw [TIER_DEFINITIONS, tierScanOs, if_pos ⟨h1, h2⟩]
      rfl
    rw [get_tier_from_os, this]
  · intro hv
    have : tierScanOs v TIER_DEFINITIONS = none := by
      apply tierScanOs_none
      intro td htd
      fin_cases htd <;> (rintro ⟨hlo, hhi⟩; simp only at hlo hhi; linarith)
    rw [get_tier_from_os, this]
    rfl
  · intro hv
    have : tierScanOs v TIER_DEFINITIONS = none := by
      apply tierScanOs_none
      intro td htd
      fin_cases htd <;> (rintro ⟨hlo, hhi⟩; simp only at hlo hhi; linarith)
    rw [get_tier_from_os, this]
    rfl

/-- C5 (witness): the amended theorem applied at the concrete value 0.5. -/
theorem C5_witness : get_tier_from_os (1/2) = ("Grandmaster", 3000, 5000) :=
  (C5_tier_lookup_total (1/2)).2.2.1 (by norm_num)

/-! ## Claim C2 -/

/-- C2 (code_bug evidence): for the new player `P` with initial ordinal
16.45 the pipeline computes percentile 50, but assigns the tier by looking
up the *raw ordinal* in the percentile bands (`get_tier_from_os(initial_os)`
in `calculate_player_champion_ratings`), yielding `Bronze` (16.45 ∈ [1,20)),
whereas the claimed two-step composition — band lookup on the computed
percentile — yields `Gold` (50 ∈ [40,60)). -/
theorem C2_tier_lookup_on_raw_ordinal :
    (initPlayer [C2sub] "P").initial_os = 1645/100
    ∧ (initPlayer [C2sub] "P").percentile = 50
    ∧ (initPlayer [C2sub] "P").tier = "Bronze"
    ∧ (get_tier_from_os (get_os_percentile (1645/100))).1 = "Gold"
    ∧ ("Bronze" : String) ≠ "Gold" := by
  refine ⟨?_, ?_, ?_, ?_, ?_⟩ <;> decide!

/-! ## Ordered-dict update lemmas -/

theorem lookup_updateEntry_self {α : Type} (k : String) (f : α → α)
    (l : List (String × α)) :
    (updateEntry k f l).lookup k = (l.lookup k).map f := by
  induction l with
  | nil => rfl
  | cons e rest ih =>
      rcases e with ⟨a, v⟩
      by_cases he : a = k
      · subst he
        simp [updateEntry, List.lookup_cons]
      · have hb : (k == a) = false := beq_eq_false_iff_ne.mpr (fun h => he h.symm)
        simp only [updateEntry, List.map_cons, if_neg he, List.lookup_cons, hb]
        exact ih

theorem lookup_updateEntry_ne {α : Type} {k q : String} (hne : q ≠ k) (f : α → α)
    (l : List (String × α)) :
    (updateEntry k f l).lookup q = l.lookup q := by
  induction l with
  | nil => rfl
  | cons e rest ih =>
      rcases e with ⟨a, v⟩
      by_cases he : a = k
      · subst he
        have hb : (q == a) = false := beq_eq_false_iff_ne.mpr hne
        simp only [updateEntry, List.map_cons, if_true, eq_self_iff_true,
          List.lookup_cons, hb]
        simpa [updateEntry] using ih
      · by_cases hq : q = a
        · subst hq
          simp only [updateEntry, List.map_cons, if_neg he, List.lookup_cons,
            beq_self_eq_true]
        · have hb : (q == a) = false := beq_eq_false_iff_ne.mpr hq
          simp only [updateEntry, List.map_cons, if_neg he, List.lookup_cons, hb]
          exact ih

theorem updateEntry_keys {α : Type} (k : String) (f : α → α) (l : List (String × α)) :
    (updateEntry k f l).map Prod.fst = l.map Prod.fst := by
  induction l with
  | nil => rfl
  | cons e rest ih =>
      by_cases he : e.1 = k
      · simp only [updateEntry, List.map_cons, if_pos he]
        exact congrArg (List.cons e.1) ih
      · simp only [updateEntry, List.map_cons, if_neg he]
        exact congrArg (List.cons e.1) ih

/-! ## Claim C9 -/

/-- C9: for a match whose (present, truthy) declared winner is neither of
the two players — the tie case, `ranks = [1, 1]` — both CR deltas are 0,
so both players' current CR values are unchanged, while both match
counters still advance by one; this holds in the full-recalculation path
(`_process_match_for_cr_changes`) and in the incremental path
(`process_match_incremental`) alike, for every skill-model function. -/
theorem C9_tie_zero_delta (rate : RateFn) (m : MatchRec) (p1 p2 : String)
    (pd : List (String × PData)) (es : List (String × IncEntry))
    (hsr : m.seed_ratings ≠ [])
    (hw : truthyStr m.winner = true)
    (h1 : m.winner ≠ some p1) (h2 : m.winner ≠ some p2) (hp : p1 ≠ p2) :
    ((_process_match_for_cr_changes rate m [p1, p2] pd).lookup p1).map PData.current_cr
        = (pd.lookup p1).map PData.current_cr
    ∧ ((_process_match_for_cr_changes rate m [p1, p2] pd).lookup p2).map PData.current_cr
        = (pd.lookup p2).map PData.current_cr
    ∧ ((_process_match_for_cr_changes rate m [p1, p2] pd).lookup p1).map PData.matchCount
        = (pd.lookup p1).map (fun d => d.matchCount + 1)
    ∧ ((_process_match_for_cr_changes rate m [p1, p2] pd).lookup p2).map PData.matchCount
        = (pd.lookup p2).map (fun d => d.matchCount + 1)
    ∧ ((process_match_incremental rate m [p1, p2] es).lookup p1).map IncEntry.current_cr
        = (es.lookup p1).map IncEntry.current_cr
    ∧ ((process_match_incremental rate m [p1, p2] es).lookup p2).map IncEntry.current_cr
        = (es.lookup p2).map IncEntry.current_cr
    ∧ ((process_match_incremental rate m [p1, p2] es).lookup p1).map IncEntry.matchCount
        = (es.lookup p1).map (fun e => e.matchCount + 1)
    ∧ ((process_match_incremental rate m [p1, p2] es).lookup p2).map IncEntry.matchCount
        = (es.lookup p2).map (fun e => e.matchCount + 1) := by
  have hguard : ¬(m.seed_ratings = [] ∨ truthyStr m.winner = false) := by
    rintro (h | h)
    · exact hsr h
    · rw [hw] at h
      exact absurd h (by decide)
  have hdelta : ∀ a b : ℚ, matchDeltas m.winner p1 p2 a b = (0, 0) := by
    intro a b
    simp [matchDeltas, h1, h2]
  simp only [_process_match_for_cr_changes, process_match_incremental,
    if_neg hguard, applyPairFull, hdelta]
  rw [lookup_updateEntry_ne hp, lookup_updateEntry_ne hp,
    lookup_updateEntry_self, lookup_updateEntry_self,
    lookup_updateEntry_self, lookup_updateEntry_self,
    lookup_updateEntry_ne (Ne.symm hp), lookup_updateEntry_ne (Ne.symm hp)]
  refine ⟨?_, ?_, ?_, ?_, ?_, ?_, ?_, ?_⟩
  · cases pd.lookup p1 <;> simp [applySide]
  · cases pd.lookup p2 <;> simp [applySide]
  · cases pd.lookup p1 <;> simp [applySide]
  · cases pd.lookup p2 <;> simp [applySide]
  · cases es.lookup p1 <;> simp [applySideInc]
  · cases es.lookup p2 <;> simp [applySideInc]
  · cases es.lookup p1 <;> simp [applySideInc]
  · cases es.lookup p2 <;> simp [applySideInc]

/-- C9 (witness): the tie theorem applied at a concrete tie match. -/
theorem C9_witness :
    ((_process_match_for_cr_changes idRate C9m ["A", "B"] C9pd).lookup "A").map PData.current_cr
        = (C9pd.lookup "A").map PData.current_cr
    ∧ ((_process_match_for_cr_changes idRate C9m ["A", "B"] C9pd).lookup "B").map PData.current_cr
        = (C9pd.lookup "B").map PData.current_cr
    ∧ ((_process_match_for_cr_changes idRate C9m ["A", "B"] C9pd).lookup "A").map PData.matchCount
        = (C9pd.lookup "A").map (fun d => d.matchCount + 1)
    ∧ ((_process_match_for_cr_changes idRate C9m ["A", "B"] C9pd).lookup "B").map PData.matchCount
        = (C9pd.lookup "B").map (fun d => d.matchCount + 1)
    ∧ ((process_match_incremental idRate C9m ["A", "B"] C9es).lookup "A").map IncEntry.current_cr
        = (C9es.lookup "A").map IncEntry.current_cr
    ∧ ((process_match_incremental idRate C9m ["A", "B"] C9es).lookup "B").map IncEntry.current_cr
        = (C9es.lookup "B").map IncEntry.current_cr
    ∧ ((process_match_incremental idRate C9m ["A", "B"] C9es).lookup "A").map IncEntry.matchCount
        = (C9es.lookup "A").map (fun e => e.matchCount + 1)
    ∧ ((process_match_incremental idRate C9m ["A", "B"] C9es).lookup "B").map IncEntry.matchCount
        = (C9es.lookup "B").map (fun e => e.matchCount + 1) :=
  C9_tie_zero_delta idRate C9m "A" "B" C9pd C9es (by decide) (by decide)
    (by decide) (by decide) (by decide)

/-! ## Claim C10 -/

/-- C10: in the incremental path, when only `p1` of a match's two players
has a leaderboard entry, the match is still applied one-sidedly: `p1`'s
entry is replaced by `applySideInc` — which updates current CR,
match/win/loss counters, win rate, latest skill and display tier — while
no entry is created or changed for the absent `p2` (the key set is
unchanged and every other key keeps its value). -/
theorem C10_one_sided_update (rate : RateFn) (m : MatchRec) (p1 p2 : String)
    (es : List (String × IncEntry)) (e1 : IncEntry)
    (hp : p1 ≠ p2)
    (h1 : es.lookup p1 = some e1)
    (h2 : es.lookup p2 = none)
    (hsr : m.seed_ratings ≠ [])
    (hw : truthyStr m.winner = true) :
    (process_match_incremental rate m [p1, p2] es).lookup p2 = none
    ∧ (process_match_incremental rate m [p1, p2] es).map Prod.fst = es.map Prod.fst
    ∧ (process_match_incremental rate m [p1, p2] es).lookup p1 =
        some (applySideInc
          (matchDeltas m.winner p1 p2
            (seedMu m.seed_ratings p1 - seedSigma m.seed_ratings p1)
            (seedMu m.seed_ratings p2 - seedSigma m.seed_ratings p2)).1
          ((rate (seedMu m.seed_ratings p1, seedSigma m.seed_ratings p1)
                 (seedMu m.seed_ratings p2, seedSigma m.seed_ratings p2)
                 (ranksFor m.winner p1 p2)).1.1 -
           (rate (seedMu m.seed_ratings p1, seedSigma m.seed_ratings p1)
                 (seedMu m.seed_ratings p2, seedSigma m.seed_ratings p2)
                 (ranksFor m.winner p1 p2)).1.2)
          (m.winner == some p1) e1)
    ∧ (∀ q, q ≠ p1 → (process_match_incremental rate m [p1, p2] es).lookup q = es.lookup q) := by
  have hguard : ¬(m.seed_ratings = [] ∨ truthyStr m.winner = false) := by
    rintro (h | h)
    · exact hsr h
    · rw [hw] at h
      exact absurd h (by decide)
  simp only [process_match_incremental, if_neg hguard]
  refine ⟨?_, ?_, ?_, ?_⟩
  · rw [lookup_updateEntry_self, lookup_updateEntry_ne (Ne.symm hp), h2]
    rfl
  · rw [updateEntry_keys, updateEntry_keys]
  · rw [lookup_updateEntry_ne hp, lookup_updateEntry_self, h1]
    rfl
  · intro q hq
    by_cases hq2 : q = p2
    · subst hq2
      rw [lookup_updateEntry_self, lookup_updateEntry_ne (Ne.symm hp), h2]
      rfl
    · rw [lookup_updateEntry_ne hq2, lookup_updateEntry_ne hq]

/-- C10 (witness): processing `C10m` against an entry map that lacks `B`
leaves `B` absent. -/
theorem C10_witness :
    (process_match_incremental idRate C10m ["A", "B"] C10es).lookup "B" = none :=
  (C10_one_sided_update idRate C10m "A" "B" C10es (create_new_player_entry "A" 15)
    (by decide) (by rfl) (by rfl) (by decide) (by decide)).1

/-! ## Claim C4 -/

theorem stepSub_processed_mono (rate : RateFn) (st : IncState) (f : String × Submission) :
    ∀ n ∈ st.processed, n ∈ (stepSub rate st f).processed := by
  intro n hn
  rw [stepSub]
  split
  · exact hn
  · simp only [List.mem_append]
    exact Or.inl hn

theorem foldl_stepSub_processed_mono (rate : RateFn) :
    ∀ (fs : List (String × Submission)) (st : IncState) (n : String),
      n ∈ st.processed → n ∈ (fs.foldl (stepSub rate) st).processed := by
  intro fs
  induction fs with
  | nil => intro st n hn; exact hn
  | cons f rest ih =>
      intro st n hn
      exact ih _ n (stepSub_processed_mono rate st f n hn)

theorem stepSub_processed_valid (rate : RateFn) (st : IncState)
    (f : String × Submission) (hlen : f.2.players.length = 2) :
    f.1 ∈ (stepSub rate st f).processed := by
  unfold stepSub
  rw [if_neg (by rw [hlen]; exact fun h => h rfl)]
  simp

theorem foldl_stepSub_mem_processed (rate : RateFn) :
    ∀ (fs : List (String × Submission)) (st : IncState) (f : String × Submission),
      f ∈ fs → f.2.players.length = 2 →
      f.1 ∈ (fs.foldl (stepSub rate) st).processed := by
  intro fs
  induction fs with
  | nil => intro st f hf; exact absurd hf (List.not_mem_nil f)
  | cons g rest ih =>
      intro st f hf hlen
      rcases List.mem_cons.mp hf with hf | hf
      · subst hf
        rw [List.foldl_cons]
        exact foldl_stepSub_processed_mono rate rest (stepSub rate st f) f.1
          (stepSub_processed_valid rate st f hlen)
      · exact ih _ f hf hlen

theorem stepSub_invalid (rate : RateFn) (st : IncState) (f : String × Submission)
    (h : f.2.players.length ≠ 2) : stepSub rate st f = st := by
  unfold stepSub
  rw [if_pos h]

theorem foldl_stepSub_all_invalid (rate : RateFn) :
    ∀ (fs : List (String × Submission)) (st : IncState),
      (∀ f ∈ fs, f.2.players.length ≠ 2) → fs.foldl (stepSub rate) st = st := by
  intro fs
  induction fs with
  | nil => intro st _; rfl
  | cons g rest ih =>
      intro st h
      rw [List.foldl_cons, stepSub_invalid rate st g (h g (List.mem_cons_self g rest))]
      exact ih st (fun f hf => h f (List.mem_cons_of_mem g hf))

/-- C4: the incremental processed-set guard gives idempotence.  First
conjunct: a submission file whose name is in the persisted processed set
is excluded from `get_new_submissions`, hence never re-applied.  Second
conjunct: running the incremental update twice over the same submissions
directory yields exactly the state (processed set and all player entries)
of running it once — so no match record, identified by its submission
filename, is ever applied a second time to any player's CR, counters or
skill estimate. -/
theorem C4_incremental_idempotent (rate : RateFn) (st : IncState)
    (files : List (String × Submission)) :
    (∀ f ∈ files, f.1 ∈ st.processed → f ∉ get_new_submissions st.processed files)
    ∧ runIncremental rate (runIncremental rate st files) files
        = runIncremental rate st files := by
  constructor
  · intro f _ hmem hin
    rw [get_new_submissions, List.mem_filter] at hin
    rcases hin with ⟨_, hnot⟩
    simp at hnot
    exact hnot hmem
  · have hall : ∀ f ∈ get_new_submissions
        (runIncremental rate st files).processed files, f.2.players.length ≠ 2 := by
      intro f hf hlen
      rw [get_new_submissions, List.mem_filter] at hf
      rcases hf with ⟨hmem, hnot⟩
      simp at hnot
      apply hnot
      rw [runIncremental]
      by_cases hin : f ∈ get_new_submissions st.processed files
      · exact foldl_stepSub_mem_processed rate _ st f hin hlen
      · apply foldl_stepSub_processed_mono
        rw [get_new_submissions, List.mem_filter] at hin
        push_neg at hin
        have hcon := hin hmem
        simp at hcon
        exact hcon
    rw [runIncremental]
    exact foldl_stepSub_all_invalid rate _ _ hall

/-- C4 (witness): the idempotence theorem applied at a concrete state and
file list: a file already in the processed set is not in the new list, and
the second run is a no-op. -/
theorem C4_witness :
    (("s1.json", C2sub) ∈ [(("s1.json" : String), C2sub)] →
      ("s1.json" : String) ∈ ["s1.json"] →
      ("s1.json", C2sub) ∉ get_new_submissions ["s1.json"] [("s1.json", C2sub)])
    ∧ runIncremental idRate
        (runIncremental idRate ⟨["s1.json"], []⟩ [("s1.json", C2sub)])
        [("s1.json", C2sub)]
      = runIncremental idRate ⟨["s1.json"], []⟩ [("s1.json", C2sub)] :=
  ⟨fun hf hp => (C4_incremental_idempotent idRate ⟨["s1.json"], []⟩
      [("s1.json", C2sub)]).1 _ hf hp,
   (C4_incremental_idempotent idRate ⟨["s1.json"], []⟩ [("s1.json", C2sub)]).2⟩

/-! ## Claim C3 -/

/-- C3 (code_bug evidence): `calculate_player_champion_ratings` collects
`all_players` into a Python `set` and builds `player_data` in set-iteration
order; the final stable sort therefore breaks (same tier, equal CR) ties
by that order.  The two orders below are permutations of the same
four-player set — two possible iteration orders of the same `set` — yet
they produce different leaderboard sequences (`A` before `B` versus `B`
before `A`), so the output depends on set iteration order. -/
theorem C3_set_order_dependence :
    (["A", "B", "C", "D"] : List String).Perm ["B", "A", "C", "D"]
    ∧ rowPlayers (calcBoard idRate ["A", "B", "C", "D"] C3subs) = ["A", "B", "C", "D"]
    ∧ rowPlayers (calcBoard idRate ["B", "A", "C", "D"] C3subs) = ["B", "A", "C", "D"]
    ∧ calcBoard idRate ["A", "B", "C", "D"] C3subs
        ≠ calcBoard idRate ["B", "A", "C", "D"] C3subs := by
  refine ⟨by decide, ?_, ?_, ?_⟩ <;> decide!

/-! ## Claim C8 -/

theorem applyPairFull_keys (rate : RateFn) (w : Option String) (p1 p2 : String)
    (a b c d : ℚ) (pd : List (String × PData)) :
    (applyPairFull rate w p1 p2 a b c d pd).map Prod.fst = pd.map Prod.fst := by
  simp only [applyPairFull]
  rw [updateEntry_keys, updateEntry_keys]

theorem process_match_keys (rate : RateFn) (m : MatchRec) (players : List String)
    (pd : List (String × PData)) :
    (_process_match_for_cr_changes rate m players pd).map Prod.fst = pd.map Prod.fst := by
  unfold _process_match_for_cr_changes
  split
  · split
    · rfl
    · exact applyPairFull_keys _ _ _ _ _ _ _ _ _
  · rfl

theorem process_replay_keys (rate : RateFn) (r : Replay) (sp : List String)
    (pd : List (String × PData)) :
    (_process_replay_for_cr_changes rate r sp pd).map Prod.fst = pd.map Prod.fst := by
  unfold _process_replay_for_cr_changes
  split
  · split
    · rfl
    · dsimp only
      split
      · rfl
      · split
        · exact applyPairFull_keys _ _ _ _ _ _ _ _ _
        · rfl
  · rfl

theorem foldl_keys {β : Type} (g : List (String × PData) → β → List (String × PData))
    (hg : ∀ pd b, (g pd b).map Prod.fst = pd.map Prod.fst) :
    ∀ (bs : List β) (pd : List (String × PData)),
      (bs.foldl g pd).map Prod.fst = pd.map Prod.fst := by
  intro bs
  induction bs with
  | nil => intro pd; rfl
  | cons b rest ih =>
      intro pd
      rw [List.foldl_cons, ih, hg]

theorem processSubmissionFull_keys (rate : RateFn) (pd : List (String × PData))
    (sub : Submission) :
    (processSubmissionFull rate pd sub).map Prod.fst = pd.map Prod.fst := by
  unfold processSubmissionFull
  split
  · rfl
  · rw [foldl_keys _ (fun pd r => process_replay_keys rate r sub.players pd),
        foldl_keys _ (fun pd m => process_match_keys rate m sub.players pd)]

theorem finalPD_keys (rate : RateFn) (order : List String) (subs : List Submission) :
    (finalPD rate order subs).map Prod.fst = order := by
  unfold finalPD processAllSubs
  rw [foldl_keys _ (fun pd sub => processSubmissionFull_keys rate pd sub)]
  unfold initPlayerData
  simp [Function.comp_def]

theorem updateEntry_owns {k : String} {f : PData → PData} {pd : List (String × PData)}
    (hf : ∀ d : PData, (f d).player = d.player) (h : OwnsName pd) :
    OwnsName (updateEntry k f pd) := by
  intro e he
  obtain ⟨e0, he0, heq⟩ := List.mem_map.mp he
  by_cases hk : e0.1 = k
  · rw [if_pos hk] at heq
    rw [← heq]
    exact (hf e0.2).trans (h e0 he0)
  · rw [if_neg hk] at heq
    rw [← heq]
    exact h e0 he0

theorem applySide_player (o : String) (δ : ℤ) (mu s : ℚ) (w : Bool) (d : PData) :
    (applySide o δ mu s w d).player = d.player := rfl

theorem applyPairFull_owns (rate : RateFn) (w : Option String) (p1 p2 : String)
    (a b c d : ℚ) {pd : List (String × PData)} (h : OwnsName pd) :
    OwnsName (applyPairFull rate w p1 p2 a b c d pd) := by
  simp only [applyPairFull]
  exact updateEntry_owns (fun d2 => rfl) (updateEntry_owns (fun d2 => rfl) h)

theorem process_match_owns (rate : RateFn) (m : MatchRec) (players : List String)
    {pd : List (String × PData)} (h : OwnsName pd) :
    OwnsName (_process_match_for_cr_changes rate m players pd) := by
  unfold _process_match_for_cr_changes
  split
  · split
    · exact h
    · exact applyPairFull_owns _ _ _ _ _ _ _ _ h
  · exact h

theorem process_replay_owns (rate : RateFn) (r : Replay) (sp : List String)
    {pd : List (String × PData)} (h : OwnsName pd) :
    OwnsName (_process_replay_for_cr_changes rate r sp pd) := by
  unfold _process_replay_for_cr_changes
  split
  · split
    · exact h
    · dsimp only
      split
      · exact h
      · split
        · exact applyPairFull_owns _ _ _ _ _ _ _ _ h
        · exact h
  · exact h

theorem foldl_owns {β : Type} (g : List (String × PData) → β → List (String × PData))
    (hg : ∀ {pd} (b : β), OwnsName pd → OwnsName (g pd b)) :
    ∀ (bs : List β) {pd : List (String × PData)},
      OwnsName pd → OwnsName (bs.foldl g pd) := by
  intro bs
  induction bs with
  | nil => intro pd h; exact h
  | cons b rest ih =>
      intro pd h
      rw [List.foldl_cons]
      exact ih (hg b h)

theorem processSubmissionFull_owns (rate : RateFn) {pd : List (String × PData)}
    (sub : Submission) (h : OwnsName pd) :
    OwnsName (processSubmissionFull rate pd sub) := by
  unfold processSubmissionFull
  split
  · exact h
  · exact foldl_owns _ (fun r h2 => process_replay_owns rate r sub.players h2) _
      (foldl_owns _ (fun m h2 => process_match_owns rate m sub.players h2) _ h)

theorem finalPD_owns (rate : RateFn) (order : List String) (subs : List Submission) :
    OwnsName (finalPD rate order subs) := by
  unfold finalPD processAllSubs
  apply foldl_owns _ (fun sub h2 => processSubmissionFull_owns rate sub h2)
  intro e he
  obtain ⟨p, _, heq⟩ := List.mem_map.mp he
  rw [← heq]
  rfl

theorem resultsOf_eq_filter (pd : List (String × PData)) :
    resultsOf pd
      = (pd.filter (fun e => e.2.matchCount != 0)).map (fun e => resultOf e.2) := by
  induction pd with
  | nil => rfl
  | cons e rest ih =>
      simp only [resultsOf] at ih
      by_cases h : e.2.matchCount = 0 <;>
        simp [resultsOf, List.filterMap_cons, List.filter_cons, h, ih]

theorem rowEntries_walk (l : List ResultRow) :
    ∀ (cur : Option String) (rank : ℕ), rowEntries (walk cur rank l) = l := by
  induction l with
  | nil => intro cur rank; rfl
  | cons e rest ih =>
      intro cur rank
      simp only [walk]
      by_cases h : cur = some e.tier
      · rw [if_pos h]
        simp only [rowEntries, List.filterMap_cons]
        rw [← rowEntries, ih]
      · rw [if_neg h]
        cases cur <;>
          simp only [rowEntries, List.filterMap_cons, List.filterMap_append,
            List.nil_append, List.cons_append, headerRow] <;>
          rw [← rowEntries, ih]

theorem rowPlayers_eq (rows : List Row) :
    rowPlayers rows = (rowEntries rows).map (fun r => r.player) := by
  induction rows with
  | nil => rfl
  | cons r rest ih =>
      cases r <;> simp [rowPlayers, rowEntries, List.filterMap_cons] <;>
        simpa [rowPlayers, rowEntries] using ih

theorem playerCountOf_eq (rows : List Row) :
    playerCountOf rows = (rowEntries rows).length := by
  induction rows with
  | nil => rfl
  | cons r rest ih =>
      cases r <;> simp [playerCountOf, rowEntries, List.filter_cons, List.filterMap_cons] <;>
        simpa [playerCountOf, rowEntries] using ih

/-- C8 (counterexample): a submission that creates ledger entries for both
its players but contains no processable match.  Both entries exist
(`initPlayerData` holds `A` and `B`), yet the assembled full-recalculation
leaderboard is empty — players with zero applied matches are dropped by
the `if total_matches == 0: continue` filter, and the player count is 0,
contradicting the claim that every ledger entry yields exactly one row. -/
theorem C8_counterexample :
    (initPlayerData [(⟨["A", "B"], [], []⟩ : Submission)] ["A", "B"]).map Prod.fst
        = ["A", "B"]
    ∧ calcBoard idRate ["A", "B"] [(⟨["A", "B"], [], []⟩ : Submission)] = []
    ∧ playerCountOf (calcBoard idRate ["A", "B"] [(⟨["A", "B"], [], []⟩ : Submission)]) = 0 := by
  refine ⟨?_, ?_, ?_⟩ <;> decide!

/-- C8 (amended): in the assembled full-recalculation leaderboard, the
player rows are exactly the ledger entries with at least one applied
match — every such player appears exactly once (the rows are a
permutation of the filtered ledger and duplicate-free when the player set
is), the ledger keys are exactly the observed player set, and the
document's player count equals the number of such players; players whose
entry was created but zero matches applied are omitted from both rows
and count. -/
theorem C8_players_with_matches (rate : RateFn) (order : List String)
    (subs : List Submission) (hnd : order.Nodup) :
    List.Perm (rowPlayers (calcBoard rate order subs))
        (((finalPD rate order subs).filter (fun e => e.2.matchCount != 0)).map Prod.fst)
    ∧ (finalPD rate order subs).map Prod.fst = order
    ∧ (rowPlayers (calcBoard rate order subs)).Nodup
    ∧ playerCountOf (calcBoard rate order subs)
        = ((finalPD rate order subs).filter (fun e => e.2.matchCount != 0)).length := by
  have hkeys := finalPD_keys rate order subs
  have howns := finalPD_owns rate order subs
  have hent : rowEntries (calcBoard rate order subs)
      = sortResults (resultsOf (finalPD rate order subs)) := by
    unfold calcBoard assembleRows
    exact rowEntries_walk _ none 0
  have hperm : List.Perm (sortResults (resultsOf (finalPD rate order subs)))
      (resultsOf (finalPD rate order subs)) :=
    List.perm_insertionSort rowLe _
  have hrs : (resultsOf (finalPD rate order subs)).map (fun r => r.player)
      = ((finalPD rate order subs).filter (fun e => e.2.matchCount != 0)).map Prod.fst := by
    rw [resultsOf_eq_filter, List.map_map]
    apply List.map_congr_left
    intro e he
    have hown := howns e (List.mem_of_mem_filter he)
    simp [resultOf, Function.comp, hown]
  have hmain : List.Perm (rowPlayers (calcBoard rate order subs))
      (((finalPD rate order subs).filter (fun e => e.2.matchCount != 0)).map Prod.fst) := by
    rw [rowPlayers_eq, hent, ← hrs]
    exact hperm.map _
  refine ⟨hmain, hkeys, ?_, ?_⟩
  · apply hmain.nodup_iff.mpr
    apply List.Nodup.sublist ((List.filter_sublist _).map Prod.fst)
    rw [hkeys]
    exact hnd
  · rw [playerCountOf_eq, hent, sortResults, List.length_insertionSort,
      resultsOf_eq_filter, List.length_map]

/-- C8 (witness): the amended theorem at a concrete corpus (one processed
match between `P` and `Q`). -/
theorem C8_witness :
    List.Perm (rowPlayers (calcBoard idRate ["P", "Q"] [C2sub]))
        (((finalPD idRate ["P", "Q"] [C2sub]).filter
            (fun e => e.2.matchCount != 0)).map Prod.fst)
    ∧ (finalPD idRate ["P", "Q"] [C2sub]).map Prod.fst = ["P", "Q"]
    ∧ (rowPlayers (calcBoard idRate ["P", "Q"] [C2sub])).Nodup
    ∧ playerCountOf (calcBoard idRate ["P", "Q"] [C2sub])
        = ((finalPD idRate ["P", "Q"] [C2sub]).filter
            (fun e => e.2.matchCount != 0)).length :=
  C8_players_with_matches idRate ["P", "Q"] [C2sub] (by decide)

/-! ## Claim C7 -/

theorem sepChunks_cons (g : List ResultRow) (gs : List (List ResultRow)) :
    sepChunks (g :: gs) = Row.tier_separator :: (groupRows g ++ sepChunks gs) := by
  simp [sepChunks]

theorem walk_some (l : List ResultRow) :
    ∀ (t : String) (r : ℕ),
      walk (some t) r l
        = rankFrom r (l.takeWhile (fun x => x.tier == t))
          ++ sepChunks (chunkTiers (l.dropWhile (fun x => x.tier == t))) := by
  induction l with
  | nil =>
      intro t r
      rw [List.takeWhile_nil, List.dropWhile_nil, chunkTiers]
      rfl
  | cons e rest ih =>
      intro t r
      by_cases h : e.tier = t
      · have hb : (e.tier == t) = true := beq_iff_eq.mpr h
        simp only [walk]
        rw [if_pos (by rw [h]), List.takeWhile_cons, List.dropWhile_cons, hb]
        simp only [if_true]
        rw [rankFrom, ih t (r + 1)]
        rfl
      · have hb : (e.tier == t) = false := beq_eq_false_iff_ne.mpr h
        simp only [walk]
        rw [if_neg (fun hc => h (Option.some.inj hc).symm),
          List.takeWhile_cons, List.dropWhile_cons, hb]
        simp only [if_false, Bool.false_eq_true]
        rw [rankFrom, chunkTiers, sepChunks_cons, groupRows, rankFrom,
          ih e.tier 1]
        simp

theorem walk_none (l : List ResultRow) :
    walk none 0 l = specAssemble (chunkTiers l) := by
  cases l with
  | nil =>
      rw [chunkTiers]
      rfl
  | cons e rest =>
      simp only [walk]
      rw [if_neg (fun hc => Option.noConfusion hc), chunkTiers, specAssemble,
        groupRows, rankFrom, walk_some rest e.tier 1]
      simp

theorem chunkTiers_flatten (l : List ResultRow) : (chunkTiers l).flatten = l := by
  induction l using chunkTiers.induct with
  | case1 =>
      rw [chunkTiers]
      rfl
  | case2 e rest ih =>
      rw [chunkTiers, List.flatten_cons, ih, List.cons_append,
        List.takeWhile_append_dropWhile]

/-- `tier_order` is injective on the configured tier names. -/
theorem tier_order_inj : ∀ t1 ∈ TIER_DEFINITIONS.map TierDef.name,
    ∀ t2 ∈ TIER_DEFINITIONS.map TierDef.name,
    tier_order t1 = tier_order t2 → t1 = t2 := by decide

/-- C7: assembled-leaderboard structure.  For any result rows whose tiers
are configured tier names: (1) the assembly walk produces exactly the
spec-shaped document — the sorted rows chunked into maximal same-tier
runs, each run rendered as one tier header followed by its player rows
ranked 1, 2, … in order, with exactly one tier separator before every run
but the first; (2) those chunks flatten back to the sorted list, so each
tier's player rows are contiguous and carry all rows; (3) the sorted list
is a permutation of the input; (4) pairwise along the sorted list, a later
row is either in the same tier with current CR no larger (CR
non-increasing within a tier), or in a strictly lower-ordered tier (tiers
from highest to lowest). -/
theorem C7_assemble_structure (entries : List ResultRow)
    (hv : ∀ e ∈ entries, e.tier ∈ TIER_DEFINITIONS.map TierDef.name) :
    assembleRows entries = specAssemble (chunkTiers (sortResults entries))
    ∧ (chunkTiers (sortResults entries)).flatten = sortResults entries
    ∧ List.Perm (sortResults entries) entries
    ∧ (sortResults entries).Pairwise (fun a b =>
        (a.tier = b.tier ∧ b.current_cr ≤ a.current_cr)
        ∨ tier_order b.tier < tier_order a.tier) := by
  refine ⟨?_, chunkTiers_flatten _, List.perm_insertionSort rowLe entries, ?_⟩
  · unfold assembleRows
    exact walk_none _
  · have hs : (sortResults entries).Pairwise rowLe :=
      List.sorted_insertionSort rowLe entries
    apply List.Pairwise.imp_of_mem ?_ hs
    intro a b ha hb hr
    have hva := hv a ((List.mem_insertionSort rowLe).mp ha)
    have hvb := hv b ((List.mem_insertionSort rowLe).mp hb)
    unfold rowLe lexLe sortKey at hr
    rcases hr with hlt | ⟨heq, hle⟩
    · right
      omega
    · left
      have hto : tier_order a.tier = tier_order b.tier := by omega
      exact ⟨tier_order_inj _ hva _ hvb hto, by omega⟩

/-- C7 (witness): the structure theorem applied at concrete rows. -/
theorem C7_witness :
    assembleRows C7entries = specAssemble (chunkTiers (sortResults C7entries))
    ∧ (chunkTiers (sortResults C7entries)).flatten = sortResults C7entries
    ∧ List.Perm (sortResults C7entries) C7entries
    ∧ (sortResults C7entries).Pairwise (fun a b =>
        (a.tier = b.tier ∧ b.current_cr ≤ a.current_cr)
        ∨ tier_order b.tier < tier_order a.tier) :=
  C7_assemble_structure C7entries (by decide)


end BarDuel
